import Mathlib

/-!
Verification of the pbench measurement harness (FCFS vs DRR scheduling
benchmark). Shallow embedding of the Go sources: the wire-protocol server
(`Server.schedule`, `Server.handleConnection`), the DRR scheduler round
(`DRR.Start`, `DRR.unregisterFlows`), the client-side TCP connection pool
(`TcpConnPool.Get`, `Put`, `handleConnectionRequest`), the load generator
(`Bench`, `sendJobs`) and the work sink. Channels are modelled as FIFO
queues with a closed flag; the wall clock as a monotone map from logical
instants to timestamps; machine integers as `Nat`/`Int`.
-/

namespace PBench

/-- Request class tag as carried on the wire: a 4-byte big-endian unsigned
integer. `SlowRequest = 0`, `FastRequest = 1` (Go `Request uint32` with
`SlowRequest Request = iota; FastRequest`). -/
def SlowRequest : Nat := 0

/-- Fast request tag (1). -/
def FastRequest : Nat := 1

/-- The two priority inlets of the scheduler, as seen from the server
(`Server.highPrio` and `Server.lowPrio`). -/
inductive Inlet where
  | high
  | low
deriving DecidableEq, Repr

/-- Embedding of `Server.schedule` (part_010 lines 108-121): under DRR a
Slow job goes to the low-priority inlet and a Fast job to the high-priority
inlet, any other tag is an error ("unknown request type"); when FCFS is
selected every job is sent to the high-priority inlet unconditionally. -/
def Server.schedule (isDRR : Bool) (req : Nat) : Except String Inlet :=
  if isDRR then
    if req = SlowRequest then .ok .low
    else if req = FastRequest then .ok .high
    else .error "unknown request type"
  else
    .ok .high

/-- What the per-connection handler does after attempting to schedule one
request (`Server.handleConnection`, part_010 lines 73-106): on a schedule
error it logs and `continue`s the read loop; on success it also returns to
reading the next request. Read errors and short reads end the handler, but
those paths do not depend on the decoded tag and are not modelled here. -/
inductive HandlerStep where
  | keepReading
deriving DecidableEq, Repr

/-- One iteration of `Server.handleConnection` after a well-formed 4-byte
read decoding to `req`: the job is routed iff `schedule` succeeds, and in
either case the handler continues reading (`continue` on error, loop
otherwise). Returns the inlet the job was sent to (`none` = not routed). -/
def Server.handleDecoded (isDRR : Bool) (req : Nat) : Option Inlet × HandlerStep :=
  match Server.schedule isDRR req with
  | .ok i => (some i, .keepReading)
  | .error _ => (none, .keepReading)

end PBench

namespace PBench

/-- Closed predicate form of claim C3 at one input: with scheduler
selection `isDRR` and decoded tag `req`, the job is not routed to any
inlet and the handler keeps reading. -/
def rejectsUnknown (isDRR : Bool) (req : Nat) : Prop :=
  (Server.handleDecoded isDRR req).1 = none ∧
  (Server.handleDecoded isDRR req).2 = .keepReading

instance (isDRR : Bool) (req : Nat) : Decidable (rejectsUnknown isDRR req) :=
  inferInstanceAs (Decidable (_ ∧ _))

end PBench

namespace PBench

/-- C2: with DRR selected the server routes Slow (tag 0) to the low inlet
and Fast (tag 1) to the high inlet, and with FCFS selected it routes every
job — whatever its tag — to the high inlet. -/
theorem schedule_routes_by_class :
    Server.schedule true SlowRequest = .ok .low ∧
    Server.schedule true FastRequest = .ok .high ∧
    ∀ req : Nat, Server.schedule false req = .ok .high := by
  refine ⟨rfl, rfl, fun req => rfl⟩

/-- C3 counterexample: the claim says that for either scheduler selection
a tag other than 0 or 1 is rejected, but with FCFS selected the server
sends the tag-4294967295 job to the high-priority inlet (the FCFS branch
of `schedule` routes unconditionally), so the job IS routed. -/
theorem fcfs_routes_unknown_tag :
    ¬ rejectsUnknown false 4294967295 := by decide

/-- C3 (amended): under DRR every decoded tag other than 0 (Slow) and
1 (Fast) is rejected — the job is routed to no inlet and the handler
continues reading the next request; under FCFS every tag, unknown ones
included, is routed to the high-priority inlet with the handler likewise
continuing. -/
theorem unknown_tag_rejected_under_drr (req : Nat)
    (hs : req ≠ SlowRequest) (hf : req ≠ FastRequest) :
    rejectsUnknown true req ∧
    (Server.handleDecoded false req).1 = some .high := by
  refine ⟨⟨?_, ?_⟩, rfl⟩ <;>
    simp [Server.handleDecoded, Server.schedule, hs, hf]

/-- Witness for `unknown_tag_rejected_under_drr` at tag 2. -/
theorem unknown_tag_rejected_under_drr_witness :
    rejectsUnknown true 2 ∧ (Server.handleDecoded false 2).1 = some .high :=
  unknown_tag_rejected_under_drr 2 (by decide) (by decide)

end PBench

namespace PBench

/-! ## Connection pool (src/internal/pbench/conn_pool.go)

The pool's mutable fields relevant to the capacity claims are
`numOpen` (Go `int`) and the size of the `idleConns` map. Each
mutex-protected section of `Get`, `Put` and of the background worker's
retry body is one atomic step on this state. -/

/-- `TcpConfig` / the pool's `maxOpenCount` and `maxIdleCount` fields
(Go `int`). -/
structure TcpConfig where
  maxOpenCount : Int
  maxIdleCount : Int
deriving DecidableEq, Repr

/-- The pool state guarded by `p.mu`: `numOpen` and `len(p.idleConns)`. -/
structure PoolState where
  idleConns : Nat
  numOpen : Int
deriving DecidableEq, Repr

/-- Which branch of `TcpConnPool.Get` runs. -/
inductive GetAction where
  | reuseIdle
  | enqueue
  | dialNew
deriving DecidableEq, Repr

/-- Embedding of `TcpConnPool.Get` (conn_pool.go lines 62-115).
Case 1: an idle connection exists — remove it from the idle set and return
it. Case 2: `maxOpenCount > 0 && numOpen >= maxOpenCount` — queue a
request on `requestChan` and block. Case 3: `numOpen++` then dial; a dial
failure rolls `numOpen` back, so the net effect is +1 exactly when the
dial succeeds (`dialOk`). -/
def TcpConnPool.get (cfg : TcpConfig) (st : PoolState) (dialOk : Bool) :
    GetAction × PoolState :=
  if 0 < st.idleConns then
    (.reuseIdle, { st with idleConns := st.idleConns - 1 })
  else if 0 < cfg.maxOpenCount ∧ cfg.maxOpenCount ≤ st.numOpen then
    (.enqueue, st)
  else
    (.dialNew, if dialOk then { st with numOpen := st.numOpen + 1 } else st)

/-- Embedding of `TcpConnPool.Put` (conn_pool.go lines 49-59): when
`maxIdleCount > 0 && maxIdleCount > len(idleConns)` the connection is
stored in the idle set (first component `true`); otherwise it is closed
and `numOpen` is decremented. -/
def TcpConnPool.put (cfg : TcpConfig) (st : PoolState) : Bool × PoolState :=
  if 0 < cfg.maxIdleCount ∧ (st.idleConns : Int) < cfg.maxIdleCount then
    (true, { st with idleConns := st.idleConns + 1 })
  else
    (false, { st with numOpen := st.numOpen - 1 })

/-- What one retry iteration of the background worker does for the request
at the head of the queue. -/
inductive WorkerAction where
  | handoffIdle
  | dialNew
  | retry
deriving DecidableEq, Repr

/-- Embedding of the locked body of one non-timeout iteration of
`TcpConnPool.handleConnectionRequest` (conn_pool.go lines 139-196): hand
off an idle connection if one exists; else, when
`maxOpenCount > 0 && numOpen < maxOpenCount`, take a slot and dial (a
failed dial rolls the slot back); else release the lock and retry. -/
def TcpConnPool.workerTry (cfg : TcpConfig) (st : PoolState) (dialOk : Bool) :
    WorkerAction × PoolState :=
  if 0 < st.idleConns then
    (.handoffIdle, { st with idleConns := st.idleConns - 1 })
  else if 0 < cfg.maxOpenCount ∧ st.numOpen < cfg.maxOpenCount then
    (.dialNew, if dialOk then { st with numOpen := st.numOpen + 1 } else st)
  else
    (.retry, st)

/-- The pool operations whose interleavings the capacity claims quantify
over; each is one of the atomic steps above. -/
inductive PoolOp where
  | getOp (dialOk : Bool)
  | putOp
  | workerOp (dialOk : Bool)
deriving DecidableEq, Repr

/-- Apply one pool operation to the state. -/
def poolStep (cfg : TcpConfig) (st : PoolState) : PoolOp → PoolState
  | .getOp dialOk => (TcpConnPool.get cfg st dialOk).2
  | .putOp => (TcpConnPool.put cfg st).2
  | .workerOp dialOk => (TcpConnPool.workerTry cfg st dialOk).2

/-- Run a sequence of pool operations from the freshly created pool
(`CreateTcpConnPool`: empty idle set, `numOpen = 0`). -/
def runPool (cfg : TcpConfig) (ops : List PoolOp) : PoolState :=
  ops.foldl (poolStep cfg) { idleConns := 0, numOpen := 0 }

/-- The capacity invariant of the pool state: `numOpen` within the open
cap and the idle set within the idle cap. -/
def poolCapsOk (cfg : TcpConfig) (st : PoolState) : Prop :=
  st.numOpen ≤ cfg.maxOpenCount ∧ (st.idleConns : Int) ≤ max cfg.maxIdleCount 0

instance (cfg : TcpConfig) (st : PoolState) : Decidable (poolCapsOk cfg st) :=
  inferInstanceAs (Decidable (_ ∧ _))

/-- Every single pool operation preserves the capacity invariant, provided
the open cap is positive. -/
theorem poolStep_preserves_caps (cfg : TcpConfig) (h : 0 < cfg.maxOpenCount)
    (st : PoolState) (hst : poolCapsOk cfg st) (op : PoolOp) :
    poolCapsOk cfg (poolStep cfg st op) := by
  obtain ⟨h1, h2⟩ := hst
  cases op with
  | getOp dialOk =>
    simp only [poolStep, TcpConnPool.get, poolCapsOk]
    split_ifs with hi hq <;> cases dialOk <;> constructor <;> simp <;> omega
  | putOp =>
    simp only [poolStep, TcpConnPool.put, poolCapsOk]
    split_ifs with hs <;> constructor <;> simp <;> omega
  | workerOp dialOk =>
    simp only [poolStep, TcpConnPool.workerTry, poolCapsOk]
    split_ifs with hi hq <;> cases dialOk <;> constructor <;> simp <;> omega

/-- Folding pool operations from any state satisfying the capacity
invariant stays within it. -/
theorem poolFold_preserves_caps (cfg : TcpConfig) (h : 0 < cfg.maxOpenCount)
    (ops : List PoolOp) (st : PoolState) (hst : poolCapsOk cfg st) :
    poolCapsOk cfg (ops.foldl (poolStep cfg) st) := by
  induction ops generalizing st with
  | nil => exact hst
  | cons op rest ih => exact ih _ (poolStep_preserves_caps cfg h st hst op)

end PBench

namespace PBench

/-- C5 (amended): provided `max_open > 0` (and a non-negative idle cap),
every sequence of get/put/worker operations keeps the pool within at most
`max_open` open connections and at most `max_idle` idle ones; `put`
stores the returned connection exactly when the idle count is below
`max_idle` and otherwise closes it and decrements the open count; and
both `get` and the background worker dial a new connection only while the
open count is below `max_open`. (The unamended claim fails when
`max_open = 0`, which the code treats as "no cap":
see the counterexample.) -/
theorem pool_never_exceeds_caps (cfg : TcpConfig) (h : 0 < cfg.maxOpenCount)
    (hI : 0 ≤ cfg.maxIdleCount) (ops : List PoolOp) (st : PoolState)
    (dialOk : Bool) :
    (runPool cfg ops).numOpen ≤ cfg.maxOpenCount ∧
    ((runPool cfg ops).idleConns : Int) ≤ cfg.maxIdleCount ∧
    ((TcpConnPool.put cfg st).1 = true ↔ (st.idleConns : Int) < cfg.maxIdleCount) ∧
    ((TcpConnPool.put cfg st).1 = false →
      (TcpConnPool.put cfg st).2.numOpen = st.numOpen - 1) ∧
    ((TcpConnPool.get cfg st dialOk).1 = .dialNew → st.numOpen < cfg.maxOpenCount) ∧
    ((TcpConnPool.workerTry cfg st dialOk).1 = .dialNew →
      st.numOpen < cfg.maxOpenCount) := by
  have hrun : poolCapsOk cfg (runPool cfg ops) :=
    poolFold_preserves_caps cfg h ops _
      ⟨by show (0 : Int) ≤ _; omega, by show ((0 : Nat) : Int) ≤ _; simp⟩
  obtain ⟨hr1, hr2⟩ := hrun
  refine ⟨hr1, by omega, ?_, ?_, ?_, ?_⟩
  · simp only [TcpConnPool.put]
    split_ifs with hs <;> simp <;> omega
  · simp only [TcpConnPool.put]
    split_ifs with hs <;> simp
  · simp only [TcpConnPool.get]
    split_ifs with hi hq <;> simp <;> omega
  · simp only [TcpConnPool.workerTry]
    split_ifs with hi hq <;> simp <;> omega

/-- Witness for `pool_never_exceeds_caps` at a concrete configuration
(`max_open = 2`, `max_idle = 1`), operation sequence and probe state. -/
theorem pool_never_exceeds_caps_witness :
    (0 : Int) < 2 ∧ (0 : Int) ≤ 1 ∧
    ((runPool ⟨2, 1⟩ [.getOp true, .putOp, .getOp true, .getOp true,
        .workerOp true, .putOp]).numOpen ≤ 2 ∧
      ((runPool ⟨2, 1⟩ [.getOp true, .putOp, .getOp true, .getOp true,
        .workerOp true, .putOp]).idleConns : Int) ≤ 1 ∧
      ((TcpConnPool.put ⟨2, 1⟩ ⟨0, 2⟩).1 = true ↔ ((0 : Nat) : Int) < 1) ∧
      ((TcpConnPool.put ⟨2, 1⟩ ⟨0, 2⟩).1 = false →
        (TcpConnPool.put ⟨2, 1⟩ ⟨0, 2⟩).2.numOpen = 2 - 1) ∧
      ((TcpConnPool.get ⟨2, 1⟩ ⟨0, 2⟩ true).1 = .dialNew → (2 : Int) < 2) ∧
      ((TcpConnPool.workerTry ⟨2, 1⟩ ⟨0, 2⟩ true).1 = .dialNew → (2 : Int) < 2)) :=
  ⟨by decide, by decide,
    pool_never_exceeds_caps ⟨2, 1⟩ (by decide) (by decide)
      [.getOp true, .putOp, .getOp true, .getOp true, .workerOp true, .putOp]
      ⟨0, 2⟩ true⟩

/-- C5 counterexample: with `max_open = 0` the pool does not hold at most
`max_open` open connections — a single `Get` from the fresh pool takes the
dial branch and leaves `numOpen = 1 > 0 = max_open`. -/
theorem pool_exceeds_zero_open_cap :
    (runPool ⟨0, 0⟩ [.getOp true]).numOpen = 1 ∧
    ¬ (runPool ⟨0, 0⟩ [.getOp true]).numOpen ≤ (0 : Int) := by
  decide

/-- C10 (amended): when `max_open = 0` a `Get` never takes the enqueue
branch — hence never blocks on the worker and never receives the worker's
timeout error, which is produced only for enqueued requests — and whenever
no idle connection is available it dials a new one regardless of the open
count; when `max_idle = 0` a `Put` never stores the connection as idle but
always closes it and decrements the open count. (The unamended claim's
"always dials a new connection" fails when an idle connection is
available: see the counterexample.) -/
theorem zero_caps_mean_unbounded (cfgO cfgI : TcpConfig)
    (stG stP : PoolState) (dialOk : Bool)
    (hO : cfgO.maxOpenCount = 0) (hI : cfgI.maxIdleCount = 0) :
    (TcpConnPool.get cfgO stG dialOk).1 ≠ .enqueue ∧
    (stG.idleConns = 0 → (TcpConnPool.get cfgO stG dialOk).1 = .dialNew) ∧
    (TcpConnPool.put cfgI stP).1 = false ∧
    (TcpConnPool.put cfgI stP).2.numOpen = stP.numOpen - 1 ∧
    (TcpConnPool.put cfgI stP).2.idleConns = stP.idleConns := by
  refine ⟨?_, ?_, ?_, ?_, ?_⟩
  · simp only [TcpConnPool.get]
    split_ifs with hi hq <;> first | (exfalso; omega) | simp
  · intro hidle
    simp only [TcpConnPool.get]
    split_ifs with hi hq <;> first | (exfalso; omega) | simp
  · simp only [TcpConnPool.put]
    split_ifs with hs <;> first | (exfalso; omega) | simp
  · simp only [TcpConnPool.put]
    split_ifs with hs <;> first | (exfalso; omega) | simp
  · simp only [TcpConnPool.put]
    split_ifs with hs <;> first | (exfalso; omega) | simp

/-- Witness for `zero_caps_mean_unbounded` at `max_open = 0`,
`max_idle = 0`, a state with five open and no idle connections. -/
theorem zero_caps_mean_unbounded_witness :
    (TcpConnPool.get ⟨0, 9⟩ ⟨0, 5⟩ true).1 ≠ .enqueue ∧
    ((0 : Nat) = 0 → (TcpConnPool.get ⟨0, 9⟩ ⟨0, 5⟩ true).1 = .dialNew) ∧
    (TcpConnPool.put ⟨9, 0⟩ ⟨0, 5⟩).1 = false ∧
    (TcpConnPool.put ⟨9, 0⟩ ⟨0, 5⟩).2.numOpen = 5 - 1 ∧
    (TcpConnPool.put ⟨9, 0⟩ ⟨0, 5⟩).2.idleConns = 0 :=
  zero_caps_mean_unbounded ⟨0, 9⟩ ⟨9, 0⟩ ⟨0, 5⟩ ⟨0, 5⟩ true rfl rfl

/-- C10 counterexample: with `max_open = 0` and an idle connection in the
pool, `Get` reuses the idle connection and does not dial, refuting
"always dials a new connection". -/
theorem get_reuses_idle_despite_zero_cap :
    (TcpConnPool.get ⟨0, 0⟩ ⟨1, 5⟩ true).1 = .reuseIdle ∧
    (TcpConnPool.get ⟨0, 0⟩ ⟨1, 5⟩ true).1 ≠ .dialNew := by
  decide

end PBench


namespace PBench

/-! ## DRR scheduler (src/unnamed/part_012)

A flow's input channel is modelled as the FIFO queue of jobs ready to be
received plus a closed flag; jobs themselves are opaque and carried as
`Nat` identifiers. A non-blocking receive (`select` with `default`)
yields the queue head when the queue is non-empty, reports "closed" when
the queue is empty and the channel is closed, and hits `default`
otherwise — Go channel semantics. The cancellation token is modelled as
a flag that is constant within a round. -/

/-- A registered DRR flow (`flow` struct): its priority — the quantum —
and the state of its input channel. -/
structure Flow where
  prio : Nat
  queue : List Nat
  closed : Bool
deriving DecidableEq, Repr

/-- Result of the inner transmit loop of `DRR.Start` on one flow. -/
structure DrainResult where
  sent : List Nat
  rest : List Nat
  marked : Bool
  ctxReturn : Bool
deriving DecidableEq, Repr

/-- The inner transmit loop of `DRR.Start` (part_012 lines 105-129),
`for i := 0; i < dc; i++`: each iteration first checks the cancellation
token (returning from `Start` if it fired), then performs a non-blocking
receive — a value is forwarded to `outChan`, a closed channel marks the
flow for removal and moves on (`continue flowLoop`), an empty one moves
on immediately. -/
def drainFlow (ctxDone : Bool) : Nat → List Nat → Bool → DrainResult
  | 0, q, _ => ⟨[], q, false, false⟩
  | dc + 1, q, cl =>
    if ctxDone then ⟨[], q, false, true⟩
    else
      match q with
      | [] => if cl then ⟨[], [], true, false⟩ else ⟨[], [], false, false⟩
      | j :: rest =>
        let r := drainFlow ctxDone dc rest cl
        ⟨j :: r.sent, r.rest, r.marked, r.ctxReturn⟩

/-- Result of the `flowLoop` body for one flow. -/
structure FlowResult where
  sent : List Nat
  flowAfter : Flow
  marked : Bool
  ctxReturn : Bool
deriving DecidableEq, Repr

/-- The `flowLoop` body of `DRR.Start` (part_012 lines 88-130) for one
flow. Entry flow (`readyIndex == index`): if the select reported the
channel closed (`!ok`) the flow is marked for removal and skipped;
otherwise the already-received `value` is forwarded to `outChan` and the
deficit counter for the inner loop is `prio - 1`. Every other flow gets
the full quantum `prio`. -/
def processFlow (ctxDone : Bool) (isEntry : Bool) (value : Nat) (ok : Bool)
    (f : Flow) : FlowResult :=
  if isEntry then
    if ok then
      let r := drainFlow ctxDone (f.prio - 1) f.queue f.closed
      ⟨value :: r.sent, { f with queue := r.rest }, r.marked, r.ctxReturn⟩
    else
      ⟨[], f, true, false⟩
  else
    let r := drainFlow ctxDone f.prio f.queue f.closed
    ⟨r.sent, { f with queue := r.rest }, r.marked, r.ctxReturn⟩

/-- Result of one whole DRR round. `outs` pairs each forwarded job with
the absolute index of the flow it came from, in emission order. -/
structure RoundResult where
  outs : List (Nat × Nat)
  toDelete : List Nat
  flowsAfter : List Flow
  ctxReturn : Bool
deriving DecidableEq, Repr

/-- The `flowLoop` of `DRR.Start` over the flows from absolute index `i`
on: each flow is processed in list order; indices marked by
`prepareToUnregister` are accumulated; a cancellation return inside a
flow's inner loop ends the traversal. -/
def roundFrom (ctxDone : Bool) (ready value : Nat) (ok : Bool) :
    Nat → List Flow → RoundResult
  | _, [] => ⟨[], [], [], false⟩
  | i, f :: rest =>
    let pr := processFlow ctxDone (i == ready) value ok f
    if pr.ctxReturn then
      ⟨pr.sent.map (fun j => (i, j)), if pr.marked then [i] else [],
        pr.flowAfter :: rest, true⟩
    else
      let rr := roundFrom ctxDone ready value ok (i + 1) rest
      ⟨pr.sent.map (fun j => (i, j)) ++ rr.outs,
        (if pr.marked then [i] else []) ++ rr.toDelete,
        pr.flowAfter :: rr.flowsAfter, rr.ctxReturn⟩

/-- One DRR round (part_012 lines 88-130): the `flowLoop` from flow 0,
given the select's result `(ready, value, ok)`. -/
def drrRound (ctxDone : Bool) (flows : List Flow) (ready value : Nat)
    (ok : Bool) : RoundResult :=
  roundFrom ctxDone ready value ok 0 flows

/-- Number of jobs the round forwarded from the flow at absolute index
`i`. -/
def sentFrom (i : Nat) (outs : List (Nat × Nat)) : Nat :=
  (outs.filter (fun p => p.1 == i)).length

/-- `DRR.prepareToUnregister` (part_012 lines 137-139): record a flow
index for removal at the end of the round. -/
def prepareToUnregister (toDelete : List Nat) (index : Nat) : List Nat :=
  toDelete ++ [index]

/-- The loop body of `DRR.unregisterFlows` (part_012 lines 141-155),
iterating over the old flows with their indices from `i` on and skipping
every index recorded in `toDelete`. -/
def unregisterLoop (toDelete : List Nat) : Nat → List Flow → List Flow
  | _, [] => []
  | i, f :: rest =>
    if toDelete.contains i then unregisterLoop toDelete (i + 1) rest
    else f :: unregisterLoop toDelete (i + 1) rest

/-- `DRR.unregisterFlows`: its first statement,
`d.flows = make([]flow, 0, len(oldFlows)-len(d.flowsToDelete))`
(part_012 line 143), computes the new slice's capacity with Go `int`
subtraction — when the to-delete list outnumbers the flows the capacity
is negative and `make` panics at runtime ("makeslice: cap out of
range"), embedded as `none`. Otherwise rebuild `d.flows` keeping, in
order, exactly the flows whose index is not in `d.flowsToDelete`; reset
`d.flowsToDelete` to the empty list; report whether no flows remain
(`len(d.flows) == 0`), which makes `Start` exit. -/
def unregisterFlows (oldFlows : List Flow) (toDelete : List Nat) :
    Option (List Flow × List Nat × Bool) :=
  if oldFlows.length < toDelete.length then none
  else
    some (unregisterLoop toDelete 0 oldFlows, [],
      (unregisterLoop toDelete 0 oldFlows).length == 0)

end PBench

namespace PBench

/-- The inner loop forwards at most `dc` jobs. -/
theorem drainFlow_sent_length_le (ctxDone : Bool) (dc : Nat) (q : List Nat)
    (cl : Bool) : (drainFlow ctxDone dc q cl).sent.length ≤ dc := by
  induction dc generalizing q with
  | zero => simp [drainFlow]
  | succ n ih =>
    cases q with
    | nil =>
      simp only [drainFlow]
      split_ifs <;> simp
    | cons j rest =>
      simp only [drainFlow]
      split_ifs with hc
      · simp
      · simpa using Nat.succ_le_succ (ih rest)

/-- With the cancellation token unset, the inner loop never returns from
`Start`. -/
theorem drainFlow_false_noReturn (dc : Nat) (q : List Nat) (cl : Bool) :
    (drainFlow false dc q cl).ctxReturn = false := by
  induction dc generalizing q with
  | zero => simp [drainFlow]
  | succ n ih =>
    cases q with
    | nil => cases cl <;> simp [drainFlow]
    | cons j rest =>
      simpa [drainFlow] using ih rest

/-- An empty, still-open queue yields no forwards and no removal mark. -/
theorem drainFlow_nil_open (ctxDone : Bool) (dc : Nat) :
    (drainFlow ctxDone dc [] false).sent = [] ∧
    (drainFlow ctxDone dc [] false).marked = false := by
  cases dc with
  | zero => simp [drainFlow]
  | succ n => cases ctxDone <;> simp [drainFlow]

/-- Each flow forwards at most `prio` jobs in a round: the entry flow
sends the already-received value plus at most `prio - 1` more, every
other flow at most `prio`. Needs `1 ≤ prio`, which `DRR.Input`
guarantees for every registered flow. -/
theorem processFlow_sent_length_le (ctxDone isEntry : Bool) (value : Nat)
    (ok : Bool) (f : Flow) (hp : 1 ≤ f.prio) :
    (processFlow ctxDone isEntry value ok f).sent.length ≤ f.prio := by
  unfold processFlow
  split_ifs with he ho
  · have h := drainFlow_sent_length_le ctxDone (f.prio - 1) f.queue f.closed
    simp only [List.length_cons]
    omega
  · simp
  · exact drainFlow_sent_length_le ctxDone f.prio f.queue f.closed

/-- With the cancellation token unset, processing a flow never returns
from `Start`. -/
theorem processFlow_false_noReturn (isEntry : Bool) (value : Nat) (ok : Bool)
    (f : Flow) : (processFlow false isEntry value ok f).ctxReturn = false := by
  unfold processFlow
  split_ifs <;> simp [drainFlow_false_noReturn]

end PBench

namespace PBench

/-- `sentFrom` distributes over concatenation of output segments. -/
theorem sentFrom_append (i : Nat) (a b : List (Nat × Nat)) :
    sentFrom i (a ++ b) = sentFrom i a + sentFrom i b := by
  simp [sentFrom, List.filter_append]

/-- A block of outputs tagged with its own flow index counts fully. -/
theorem sentFrom_map_self (i : Nat) (xs : List Nat) :
    sentFrom i (xs.map (fun j => (i, j))) = xs.length := by
  induction xs with
  | nil => rfl
  | cons x xs ih =>
    simp only [List.map_cons, sentFrom, List.filter_cons] at ih ⊢
    simp only [beq_self_eq_true, if_true, List.length_cons]
    omega

/-- A block of outputs tagged with a different flow index counts zero. -/
theorem sentFrom_map_ne (i t : Nat) (h : i ≠ t) (xs : List Nat) :
    sentFrom t (xs.map (fun j => (i, j))) = 0 := by
  induction xs with
  | nil => rfl
  | cons x xs ih =>
    simp only [List.map_cons, sentFrom, List.filter_cons] at ih ⊢
    simp [h, ih]

/-- Unfolding `roundFrom` outputs when cancellation fires inside the
first flow's inner loop. -/
theorem roundFrom_outs_stop (ctxDone : Bool) (ready value : Nat) (ok : Bool)
    (i : Nat) (f : Flow) (rest : List Flow)
    (h : (processFlow ctxDone (i == ready) value ok f).ctxReturn = true) :
    (roundFrom ctxDone ready value ok i (f :: rest)).outs =
      (processFlow ctxDone (i == ready) value ok f).sent.map (fun j => (i, j)) := by
  simp [roundFrom, h]

/-- Unfolding `roundFrom` outputs when the traversal moves past the first
flow. -/
theorem roundFrom_outs_go (ctxDone : Bool) (ready value : Nat) (ok : Bool)
    (i : Nat) (f : Flow) (rest : List Flow)
    (h : (processFlow ctxDone (i == ready) value ok f).ctxReturn = false) :
    (roundFrom ctxDone ready value ok i (f :: rest)).outs =
      (processFlow ctxDone (i == ready) value ok f).sent.map (fun j => (i, j)) ++
        (roundFrom ctxDone ready value ok (i + 1) rest).outs := by
  simp [roundFrom, h]

/-- Unfolding `roundFrom` marked indices when cancellation fires inside
the first flow's inner loop. -/
theorem roundFrom_toDelete_stop (ctxDone : Bool) (ready value : Nat) (ok : Bool)
    (i : Nat) (f : Flow) (rest : List Flow)
    (h : (processFlow ctxDone (i == ready) value ok f).ctxReturn = true) :
    (roundFrom ctxDone ready value ok i (f :: rest)).toDelete =
      (if (processFlow ctxDone (i == ready) value ok f).marked then [i] else []) := by
  simp [roundFrom, h]

/-- Unfolding `roundFrom` marked indices when the traversal moves past
the first flow. -/
theorem roundFrom_toDelete_go (ctxDone : Bool) (ready value : Nat) (ok : Bool)
    (i : Nat) (f : Flow) (rest : List Flow)
    (h : (processFlow ctxDone (i == ready) value ok f).ctxReturn = false) :
    (roundFrom ctxDone ready value ok i (f :: rest)).toDelete =
      (if (processFlow ctxDone (i == ready) value ok f).marked then [i] else []) ++
        (roundFrom ctxDone ready value ok (i + 1) rest).toDelete := by
  simp [roundFrom, h]

/-- Every output of the traversal from index `s` is tagged in
`[s, s + length)`. -/
theorem roundFrom_outs_tags (ctxDone : Bool) (ready value : Nat) (ok : Bool)
    (s : Nat) (l : List Flow) :
    ∀ p ∈ (roundFrom ctxDone ready value ok s l).outs,
      s ≤ p.1 ∧ p.1 < s + l.length := by
  induction l generalizing s with
  | nil => simp [roundFrom]
  | cons f rest ih =>
    intro p hp
    by_cases hr : (processFlow ctxDone (s == ready) value ok f).ctxReturn = true
    · rw [roundFrom_outs_stop ctxDone ready value ok s f rest hr] at hp
      obtain ⟨j, hj, rfl⟩ := List.mem_map.mp hp
      simp only [List.length_cons]
      omega
    · rw [Bool.not_eq_true] at hr
      rw [roundFrom_outs_go ctxDone ready value ok s f rest hr] at hp
      rcases List.mem_append.mp hp with hp | hp
      · obtain ⟨j, hj, rfl⟩ := List.mem_map.mp hp
        simp only [List.length_cons]
        omega
      · have h2 := ih (s + 1) p hp
        simp only [List.length_cons]
        omega

/-- Every index marked for deletion by the traversal from `s` is at
least `s`. -/
theorem roundFrom_toDelete_ge (ctxDone : Bool) (ready value : Nat) (ok : Bool)
    (s : Nat) (l : List Flow) :
    ∀ t ∈ (roundFrom ctxDone ready value ok s l).toDelete, s ≤ t := by
  induction l generalizing s with
  | nil => simp [roundFrom]
  | cons f rest ih =>
    intro t ht
    by_cases hr : (processFlow ctxDone (s == ready) value ok f).ctxReturn = true
    · rw [roundFrom_toDelete_stop ctxDone ready value ok s f rest hr] at ht
      split_ifs at ht with hm
      · simp at ht
        omega
      · simp at ht
    · rw [Bool.not_eq_true] at hr
      rw [roundFrom_toDelete_go ctxDone ready value ok s f rest hr] at ht
      rcases List.mem_append.mp ht with ht | ht
      · split_ifs at ht with hm
        · simp at ht
          omega
        · simp at ht
      · have h2 := ih (s + 1) t ht
        omega

end PBench

namespace PBench

/-- A flow index that tags no output receives count zero. -/
theorem sentFrom_eq_zero_of_tags (t : Nat) (outs : List (Nat × Nat))
    (h : ∀ p ∈ outs, p.1 ≠ t) : sentFrom t outs = 0 := by
  simp only [sentFrom, List.length_eq_zero]
  refine List.filter_eq_nil_iff.mpr ?_
  intro p hp
  simpa using h p hp

/-- Core quantum bound: the traversal from `s` forwards at most
`prio` jobs from the flow at relative position `k` (absolute index
`s + k`). -/
theorem sentFrom_roundFrom_le (ctxDone : Bool) (ready value : Nat) (ok : Bool)
    (s : Nat) (l : List Flow) (k : Nat) :
    ∀ (hk : k < l.length), (∀ f ∈ l, 1 ≤ f.prio) →
      sentFrom (s + k) (roundFrom ctxDone ready value ok s l).outs ≤
        (l.get ⟨k, hk⟩).prio := by
  induction l generalizing s k with
  | nil =>
    intro hk _
    exact absurd hk (by simp)
  | cons f rest ih =>
    intro hk hprio
    have hpf : 1 ≤ f.prio := hprio f (List.mem_cons_self f rest)
    by_cases hr : (processFlow ctxDone (s == ready) value ok f).ctxReturn = true
    · rw [roundFrom_outs_stop ctxDone ready value ok s f rest hr]
      cases k with
      | zero =>
        simp only [Nat.add_zero]
        rw [sentFrom_map_self]
        exact processFlow_sent_length_le ctxDone (s == ready) value ok f hpf
      | succ k =>
        rw [sentFrom_map_ne s (s + (k + 1)) (by omega)]
        exact Nat.zero_le _
    · rw [Bool.not_eq_true] at hr
      rw [roundFrom_outs_go ctxDone ready value ok s f rest hr, sentFrom_append]
      cases k with
      | zero =>
        simp only [Nat.add_zero]
        rw [sentFrom_map_self]
        have hz : sentFrom s (roundFrom ctxDone ready value ok (s + 1) rest).outs = 0 := by
          refine sentFrom_eq_zero_of_tags s _ ?_
          intro p hp
          have := roundFrom_outs_tags ctxDone ready value ok (s + 1) rest p hp
          omega
        have hb := processFlow_sent_length_le ctxDone (s == ready) value ok f hpf
        have hget : ((f :: rest).get ⟨0, hk⟩) = f := rfl
        rw [hget, hz]
        omega
      | succ k =>
        rw [sentFrom_map_ne s (s + (k + 1)) (by omega)]
        have hk' : k < rest.length := by
          have := hk
          simp only [List.length_cons] at this
          omega
        have hrec := ih (s + 1) k hk' (fun g hg => hprio g (List.mem_cons_of_mem f hg))
        have heq : s + (k + 1) = (s + 1) + k := by omega
        rw [heq, Nat.zero_add]
        exact hrec

end PBench

namespace PBench

/-- A flow that is not the entry flow gets the plain quantum treatment. -/
theorem processFlow_nonentry_sent (ctxDone : Bool) (value : Nat) (ok : Bool)
    (f : Flow) :
    (processFlow ctxDone false value ok f).sent =
      (drainFlow ctxDone f.prio f.queue f.closed).sent := by
  simp [processFlow]

/-- Non-entry flows are marked exactly when their inner loop saw the
channel closed. -/
theorem processFlow_nonentry_marked (ctxDone : Bool) (value : Nat) (ok : Bool)
    (f : Flow) :
    (processFlow ctxDone false value ok f).marked =
      (drainFlow ctxDone f.prio f.queue f.closed).marked := by
  simp [processFlow]

/-- With the token unset and the select delivering a value, the winning
flow's first emission in the round is exactly that value. -/
theorem roundFrom_entry_head (value ready : Nat) (s : Nat) (l : List Flow) :
    s ≤ ready → ready < s + l.length →
      ((roundFrom false ready value true s l).outs.filter
          (fun p => p.1 == ready)).head? = some (ready, value) := by
  induction l generalizing s with
  | nil =>
    intro hs hlt
    simp only [List.length_nil, Nat.add_zero] at hlt
    omega
  | cons f rest ih =>
    intro hs hlt
    have hr : (processFlow false (s == ready) value true f).ctxReturn = false :=
      processFlow_false_noReturn _ _ _ _
    rw [roundFrom_outs_go false ready value true s f rest hr, List.filter_append]
    by_cases he : s = ready
    · subst he
      have hsent : (processFlow false (s == s) value true f).sent =
          value :: (drainFlow false (f.prio - 1) f.queue f.closed).sent := by
        simp [processFlow]
      rw [hsent]
      simp
    · have hblock : ((processFlow false (s == ready) value true f).sent.map
          (fun j => (s, j))).filter (fun p => p.1 == ready) = [] :=
        List.length_eq_zero.mp (sentFrom_map_ne s ready he _)
      rw [hblock, List.nil_append]
      refine ih (s + 1) (by omega) ?_
      simp only [List.length_cons] at hlt
      omega

/-- A non-entry flow whose queue is empty and still open forwards
nothing in the round and is not marked for removal. -/
theorem roundFrom_skips_empty_open (ctxDone : Bool) (ready value : Nat)
    (ok : Bool) (s : Nat) (l : List Flow) (k : Nat) :
    ∀ (hk : k < l.length), s + k ≠ ready →
      (l.get ⟨k, hk⟩).queue = [] → (l.get ⟨k, hk⟩).closed = false →
      sentFrom (s + k) (roundFrom ctxDone ready value ok s l).outs = 0 ∧
      (s + k) ∉ (roundFrom ctxDone ready value ok s l).toDelete := by
  induction l generalizing s k with
  | nil =>
    intro hk
    exact absurd hk (by simp)
  | cons f rest ih =>
    intro hk hne hq hc
    cases k with
    | zero =>
      simp only [Nat.add_zero] at hne ⊢
      have hq' : f.queue = [] := hq
      have hc' : f.closed = false := hc
      have hbe : (s == ready) = false := by
        simp only [beq_eq_false_iff_ne, ne_eq]
        omega
      have h0 := drainFlow_nil_open ctxDone f.prio
      have hsent : (processFlow ctxDone (s == ready) value ok f).sent = [] := by
        rw [hbe, processFlow_nonentry_sent, hq', hc']
        exact h0.1
      have hmarked : (processFlow ctxDone (s == ready) value ok f).marked = false := by
        rw [hbe, processFlow_nonentry_marked, hq', hc']
        exact h0.2
      by_cases hr : (processFlow ctxDone (s == ready) value ok f).ctxReturn = true
      · constructor
        · rw [roundFrom_outs_stop ctxDone ready value ok s f rest hr, hsent]
          rfl
        · rw [roundFrom_toDelete_stop ctxDone ready value ok s f rest hr, hmarked]
          simp
      · rw [Bool.not_eq_true] at hr
        constructor
        · rw [roundFrom_outs_go ctxDone ready value ok s f rest hr,
            sentFrom_append, hsent]
          have hz : sentFrom s (roundFrom ctxDone ready value ok (s + 1) rest).outs = 0 := by
            refine sentFrom_eq_zero_of_tags s _ ?_
            intro p hp
            have := roundFrom_outs_tags ctxDone ready value ok (s + 1) rest p hp
            omega
          rw [hz]
          rfl
        · rw [roundFrom_toDelete_go ctxDone ready value ok s f rest hr, hmarked]
          intro hmem
          simp only [Bool.false_eq_true, if_false, List.nil_append] at hmem
          have := roundFrom_toDelete_ge ctxDone ready value ok (s + 1) rest s hmem
          omega
    | succ k =>
      have hk' : k < rest.length := by
        simp only [List.length_cons] at hk
        omega
      have hrec := ih (s + 1) k hk' (by omega) hq hc
      have heq : s + (k + 1) = (s + 1) + k := by omega
      by_cases hr : (processFlow ctxDone (s == ready) value ok f).ctxReturn = true
      · constructor
        · rw [roundFrom_outs_stop ctxDone ready value ok s f rest hr]
          exact sentFrom_map_ne s (s + (k + 1)) (by omega) _
        · rw [roundFrom_toDelete_stop ctxDone ready value ok s f rest hr]
          by_cases hm : (processFlow ctxDone (s == ready) value ok f).marked
          · simp only [hm, if_true, List.mem_singleton]
            omega
          · simp [hm]
      · rw [Bool.not_eq_true] at hr
        constructor
        · rw [roundFrom_outs_go ctxDone ready value ok s f rest hr,
            sentFrom_append, sentFrom_map_ne s (s + (k + 1)) (by omega)]
          rw [heq, hrec.1]
        · rw [roundFrom_toDelete_go ctxDone ready value ok s f rest hr]
          intro hmem
          rcases List.mem_append.mp hmem with hm | hm
          · by_cases hmk : (processFlow ctxDone (s == ready) value ok f).marked
            · simp only [hmk, if_true, List.mem_singleton] at hm
              omega
            · simp [hmk] at hm
          · refine hrec.2 ?_
            rw [← heq]
            exact hm

end PBench

namespace PBench

/-- C1: in a DRR round in which the select delivered `value` from flow
`ready` and the cancellation token is unset, the scheduler — visiting the
flows in list order — forwards at most quantum = priority jobs from each
flow `j`; the entry flow's already-received value is the first output
emitted on its behalf (so it gets at most `quantum - 1` further
forwards, the bound counting the entry value); and a non-entry flow
whose queue is empty and still open is skipped with no forwards and no
removal mark — and since the embedded `DRR` state (like the Go struct)
keeps no deficit counter between rounds, the quantum available in the
next round is again exactly the flow's priority, so no deficit is
carried over. Priorities are positive, as `DRR.Input` enforces. -/
theorem drr_round_respects_quanta (flows : List Flow) (ready value j : Nat)
    (hj : j < flows.length) (hready : ready < flows.length)
    (hprio : ∀ f ∈ flows, 1 ≤ f.prio) :
    sentFrom j (drrRound false flows ready value true).outs ≤
      (flows.get ⟨j, hj⟩).prio ∧
    ((drrRound false flows ready value true).outs.filter
        (fun p => p.1 == ready)).head? = some (ready, value) ∧
    (j ≠ ready → (flows.get ⟨j, hj⟩).queue = [] →
      (flows.get ⟨j, hj⟩).closed = false →
      sentFrom j (drrRound false flows ready value true).outs = 0 ∧
      j ∉ (drrRound false flows ready value true).toDelete) := by
  refine ⟨?_, ?_, ?_⟩
  · have h := sentFrom_roundFrom_le false ready value true 0 flows j hj hprio
    simpa using h
  · exact roundFrom_entry_head value ready 0 flows (Nat.zero_le _)
      (by simpa using hready)
  · intro hne hq hc
    have h := roundFrom_skips_empty_open false ready value true 0 flows j hj
      (by simpa using hne) hq hc
    simpa using h

/-- Witness for `drr_round_respects_quanta`: the repository configuration
fast = 3, slow = 2, with the fast flow winning the select and the slow
flow's queue empty and open. -/
theorem drr_round_respects_quanta_witness :
    sentFrom 1 (drrRound false [⟨3, [1, 2, 3, 4], false⟩, ⟨2, [], false⟩]
      0 9 true).outs ≤ 2 ∧
    ((drrRound false [⟨3, [1, 2, 3, 4], false⟩, ⟨2, [], false⟩]
        0 9 true).outs.filter (fun p => p.1 == 0)).head? = some (0, 9) ∧
    (1 ≠ 0 → ([] : List Nat) = [] → false = false →
      sentFrom 1 (drrRound false [⟨3, [1, 2, 3, 4], false⟩, ⟨2, [], false⟩]
        0 9 true).outs = 0 ∧
      1 ∉ (drrRound false [⟨3, [1, 2, 3, 4], false⟩, ⟨2, [], false⟩]
        0 9 true).toDelete) :=
  drr_round_respects_quanta [⟨3, [1, 2, 3, 4], false⟩, ⟨2, [], false⟩]
    0 9 1 (by decide) (by decide) (by decide)

/-- The loop of `unregisterFlows` keeps, in order, exactly the flows at
positions (counted from `s`) not recorded in the deletion list. -/
theorem unregisterLoop_eq (td : List Nat) (s : Nat) (l : List Flow) :
    unregisterLoop td s l =
      ((List.enumFrom s l).filter (fun p => !(td.contains p.1))).map Prod.snd := by
  induction l generalizing s with
  | nil => rfl
  | cons f rest ih =>
    simp only [unregisterLoop, List.enumFrom, List.filter_cons]
    by_cases h : s ∈ td
    · simp [h, ih (s + 1)]
    · simp [h, ih (s + 1)]

/-- C9 counterexample: the claim quantifies over every flow list and
every marked-index list, but at `oldFlows = [one flow]`,
`flowsToDelete = [0, 0]` the purge does not remove the marked flow and
return — `make([]flow, 0, 1-2)` panics on the negative capacity
(embedded as `none`), so in particular it does not produce the claimed
emptied-list result. -/
theorem unregisterFlows_panics_when_marks_exceed_flows :
    unregisterFlows [⟨1, [], false⟩] [0, 0] = none ∧
    unregisterFlows [⟨1, [], false⟩] [0, 0] ≠ some ([], [], true) := by
  decide

/-- C9 (amended): whenever the marked indices do not outnumber the flows
— in particular for every to-delete list `DRR.Start` can record, which
marks each flow's index at most once per round — the end-of-round purge
removes exactly the flows whose index was marked, preserving the
relative order of the survivors (the result is the index-filtered
original list), resets the to-delete list to empty, and reports `true`
exactly when no flows remain; with more marks than flows the capacity
computation `make([]flow, 0, len(oldFlows)-len(flowsToDelete))` panics
instead. -/
theorem unregisterFlows_purges_marked (oldFlows : List Flow) (td : List Nat)
    (hlen : td.length ≤ oldFlows.length) :
    unregisterFlows oldFlows td =
      some ((((List.enumFrom 0 oldFlows).filter
          (fun p => !(td.contains p.1))).map Prod.snd), [],
        ((((List.enumFrom 0 oldFlows).filter
          (fun p => !(td.contains p.1))).map Prod.snd).length == 0)) ∧
    (((((List.enumFrom 0 oldFlows).filter
          (fun p => !(td.contains p.1))).map Prod.snd).length == 0) = true ↔
      ((List.enumFrom 0 oldFlows).filter
          (fun p => !(td.contains p.1))).map Prod.snd = []) := by
  have hnot : ¬ oldFlows.length < td.length := by omega
  constructor
  · simp only [unregisterFlows]
    rw [if_neg hnot, unregisterLoop_eq]
  · simp [List.length_eq_zero]

/-- Witness for `unregisterFlows_purges_marked`: three flows with
indices 0 and 2 marked — the middle flow survives, the to-delete list
is reset, and the scheduler does not exit. -/
theorem unregisterFlows_purges_marked_witness :
    unregisterFlows [⟨3, [], false⟩, ⟨2, [5], false⟩, ⟨1, [], false⟩] [0, 2] =
      some ((((List.enumFrom 0 [⟨3, [], false⟩, ⟨2, [5], false⟩,
            (⟨1, [], false⟩ : Flow)]).filter
          (fun p => !([0, 2].contains p.1))).map Prod.snd), [],
        ((((List.enumFrom 0 [⟨3, [], false⟩, ⟨2, [5], false⟩,
            (⟨1, [], false⟩ : Flow)]).filter
          (fun p => !([0, 2].contains p.1))).map Prod.snd).length == 0)) ∧
    (((((List.enumFrom 0 [⟨3, [], false⟩, ⟨2, [5], false⟩,
            (⟨1, [], false⟩ : Flow)]).filter
          (fun p => !([0, 2].contains p.1))).map Prod.snd).length == 0) = true ↔
      ((List.enumFrom 0 [⟨3, [], false⟩, ⟨2, [5], false⟩,
            (⟨1, [], false⟩ : Flow)]).filter
          (fun p => !([0, 2].contains p.1))).map Prod.snd = []) :=
  unregisterFlows_purges_marked
    [⟨3, [], false⟩, ⟨2, [5], false⟩, ⟨1, [], false⟩] [0, 2] (by decide)

end PBench

namespace PBench

/-! ## Scheduler shutdown (src/internal/pbench/fcfs.go, part_012)

Channels are identified by opaque `Nat` ids so that "which channels does
the exit path close" is a checkable statement. -/

/-- The `FCFS` struct's two channels: `out` and `in`. -/
structure FCFSChans where
  outChan : Nat
  inChan : Nat
deriving DecidableEq, Repr

/-- The channels `FCFS.Start` closes when it exits: its deferred cleanup
is `defer close(f.in)` (fcfs.go line 25) — only the input channel. -/
def FCFS.closedOnExit (f : FCFSChans) : List Nat := [f.inChan]

/-- The `DRR` struct's channels: the output channel and the
priority-to-input-channel map built by `DRR.Input`. -/
structure DRRChans where
  outChan : Nat
  prioToFlow : List (Nat × Nat)
deriving DecidableEq, Repr

/-- The channels `DRR.Start` closes when it exits: its deferred cleanup
(part_012 lines 75-79) iterates `d.prioToFlow` and closes each input
channel — the output channel is not among them, although the function's
own doc comment says "DRR goroutine closes the output channel upon
termination". -/
def DRR.closedOnExit (d : DRRChans) : List Nat := d.prioToFlow.map Prod.snd

/-- C4 evaluation at the repository configuration (output channel id 0,
fast input id 1 with priority 3, slow input id 2 with priority 2): on
exit FCFS closes exactly its input channel and DRR closes exactly its two
registered input channels; neither closes the output channel. The claim
(and DRR's own doc comment) says the output stream is closed on exit —
the code does not do that. -/
theorem scheduler_exit_closes_inputs_not_output :
    FCFS.closedOnExit ⟨0, 1⟩ = [1] ∧
    (0 : Nat) ∉ FCFS.closedOnExit ⟨0, 1⟩ ∧
    DRR.closedOnExit ⟨0, [(3, 1), (2, 2)]⟩ = [1, 2] ∧
    (0 : Nat) ∉ DRR.closedOnExit ⟨0, [(3, 1), (2, 2)]⟩ := by
  decide

end PBench

namespace PBench

/-! ## Load generator (`Bench` / `sendJobs`, part_014) -/

/-- `Bench` (part_014 line 71):
`nSlowRequest := math.Floor(float64(TotRequests) * float64(SlowRequestLoad) / 100)`.
Embedded as the integer floor `tot * load / 100`, which the float64
computation equals throughout the representable workload range
(`tot * load < 2^46`; both operands are exact in float64 and the single
division's rounding error is below the distance to the next integer). -/
def nSlowRequest (tot load : Nat) : Nat := tot * load / 100

/-- The fast generator's count (part_014 line 83):
`nFastRequest := TotRequests - int(nSlowRequest)`. -/
def nFastRequest (tot load : Nat) : Nat := tot - nSlowRequest tot load

/-- `sendJobs` (part_014 lines 214-233): emits up to `n` requests of
class `req`, one per loop iteration after an exponential wait; before and
during each wait it checks the cancellation token and returns when it
has fired. `cancelAt = some c` models the token firing during iteration
`c`; `none` models no cancellation. -/
def sendJobs (req : Nat) : Nat → Option Nat → List Nat
  | 0, _ => []
  | _ + 1, some 0 => []
  | n + 1, some (k + 1) => req :: sendJobs req n (some k)
  | n + 1, none => req :: sendJobs req n none

/-- Without cancellation, `sendJobs` emits exactly its count. -/
theorem sendJobs_none (req n : Nat) :
    sendJobs req n none = List.replicate n req := by
  induction n with
  | zero => rfl
  | succ n ih => simp [sendJobs, List.replicate, ih]

/-- C7: for every total `tot` and slow percentage `load ≤ 100`, the
driver computes `n_slow = ⌊tot·load/100⌋` and `n_fast = tot − n_slow`,
the two add up to `tot`, and — absent cancellation — the two arrival
generators emit exactly `n_slow` Slow requests and `n_fast` Fast
requests. -/
theorem bench_splits_requests (tot load : Nat) (hload : load ≤ 100) :
    nSlowRequest tot load = tot * load / 100 ∧
    nSlowRequest tot load ≤ tot ∧
    nSlowRequest tot load + nFastRequest tot load = tot ∧
    sendJobs SlowRequest (nSlowRequest tot load) none =
      List.replicate (nSlowRequest tot load) SlowRequest ∧
    sendJobs FastRequest (nFastRequest tot load) none =
      List.replicate (nFastRequest tot load) FastRequest := by
  have hle : nSlowRequest tot load ≤ tot := by
    have hm : tot * load ≤ tot * 100 := Nat.mul_le_mul_left tot hload
    simp only [nSlowRequest]
    omega
  refine ⟨rfl, hle, ?_, sendJobs_none _ _, sendJobs_none _ _⟩
  simp only [nFastRequest]
  omega

/-- Witness for `bench_splits_requests` at `tot = 10`, `load = 37`. -/
theorem bench_splits_requests_witness :
    nSlowRequest 10 37 = 10 * 37 / 100 ∧
    nSlowRequest 10 37 ≤ 10 ∧
    nSlowRequest 10 37 + nFastRequest 10 37 = 10 ∧
    sendJobs SlowRequest (nSlowRequest 10 37) none =
      List.replicate (nSlowRequest 10 37) SlowRequest ∧
    sendJobs FastRequest (nFastRequest 10 37) none =
      List.replicate (nFastRequest 10 37) FastRequest :=
  bench_splits_requests 10 37 (by decide)

end PBench

namespace PBench

/-! ## Timestamps (part_010 `handleConnection`, cmd/server/main.go work
sink) -/

/-- The `Response` timestamps of a job (stamped as
`time.Now().UnixMicro()` microsecond values in one variant, `time.Time`
in the other; embedded as integers). -/
structure Response where
  acceptedTs : Int
  runningTs : Int
  finishedTs : Int
deriving DecidableEq, Repr

/-- Server-side job construction (`handleConnection`): after the request
bytes are read at logical instant `tAccept`, the job carries
`AcceptedTs = time.Now()`; the other stamps still hold Go's zero value. -/
def mkJob (clock : Nat → Int) (tAccept : Nat) : Response :=
  { acceptedTs := clock tAccept, runningTs := 0, finishedTs := 0 }

/-- The work sink's loop body (cmd/server/main.go lines 107-125): stamp
`RunningTs = time.Now()` at instant `tRun`, perform the configured work
(`buffer.Slow()` / `buffer.Fast()`), then stamp
`FinishedTs = time.Now()` at instant `tFin`. -/
def workSink (clock : Nat → Int) (tRun tFin : Nat) (r : Response) : Response :=
  { r with runningTs := clock tRun, finishedTs := clock tFin }

/-- C8: for a job accepted at instant `tAccept` and served by the sink at
instants `tRun` (before the work) and `tFin` (after it), with the wall
clock monotone and the instants in program/happens-before order — the
server stamps `accepted_ts` before handing the job to the scheduler, the
sink reads the job after that and stamps `running_ts` before the work
and `finished_ts` after it — the three timestamps are monotonically
ordered. -/
theorem timestamps_monotone (clock : Nat → Int) (hmono : Monotone clock)
    (tAccept tRun tFin : Nat) (h1 : tAccept ≤ tRun) (h2 : tRun ≤ tFin) :
    (workSink clock tRun tFin (mkJob clock tAccept)).acceptedTs ≤
      (workSink clock tRun tFin (mkJob clock tAccept)).runningTs ∧
    (workSink clock tRun tFin (mkJob clock tAccept)).runningTs ≤
      (workSink clock tRun tFin (mkJob clock tAccept)).finishedTs :=
  ⟨hmono h1, hmono h2⟩

/-- Witness for `timestamps_monotone` with the identity clock at
instants 0 ≤ 1 ≤ 2. -/
theorem timestamps_monotone_witness :
    (workSink (fun t => (t : Int)) 1 2 (mkJob (fun t => (t : Int)) 0)).acceptedTs ≤
      (workSink (fun t => (t : Int)) 1 2 (mkJob (fun t => (t : Int)) 0)).runningTs ∧
    (workSink (fun t => (t : Int)) 1 2 (mkJob (fun t => (t : Int)) 0)).runningTs ≤
      (workSink (fun t => (t : Int)) 1 2 (mkJob (fun t => (t : Int)) 0)).finishedTs :=
  timestamps_monotone (fun t => (t : Int))
    (fun a b h => by simpa using h) 0 1 2 (by decide) (by decide)

end PBench

namespace PBench

/-! ## Pool request worker (conn_pool.go `handleConnectionRequest`) -/

/-- The outcome a blocked `Get` receives over its request's two reply
channels: a connection on `connChan` or the timeout error on `errChan`. -/
inductive Outcome where
  | conn
  | timeoutErr
deriving DecidableEq, Repr

/-- Whether one locked inspection of the pool (a non-timeout iteration of
the worker's retry loop) fulfils the request: an idle connection is
handed off, or a free slot exists and the dial succeeds; a failed dial
rolls the slot back and the loop retries. -/
def workerSucceeds (cfg : TcpConfig) (st : PoolState) (dOk : Bool) : Bool :=
  match (TcpConnPool.workerTry cfg st dOk).1 with
  | .handoffIdle => true
  | .dialNew => dOk
  | .retry => false

/-- The worker's retry loop for one queued request
(`handleConnectionRequest`, conn_pool.go lines 139-196). `env i` is the
pool state the iteration-`i` inspection sees, `dialOk i` whether a dial
at that iteration would succeed, and `remaining` counts the iterations
left before the request's 3-second `time.After` deadline becomes ready,
at which point the `select` takes the timeout case, sends
`req.errChan <- errTimeout` and breaks; a successful inspection sends
`req.connChan <- c` and breaks. -/
def serveLoop (cfg : TcpConfig) (env : Nat → PoolState) (dialOk : Nat → Bool) :
    Nat → Nat → Outcome
  | 0, _ => .timeoutErr
  | r + 1, i =>
    if workerSucceeds cfg (env i) (dialOk i) then .conn
    else serveLoop cfg env dialOk r (i + 1)

/-- A queued request's outcome: the retry loop from iteration 0, with
`timeoutAt` iterations until the 3-second deadline. -/
def serveRequest (cfg : TcpConfig) (env : Nat → PoolState)
    (dialOk : Nat → Bool) (timeoutAt : Nat) : Outcome :=
  serveLoop cfg env dialOk timeoutAt 0

/-- How many messages the retry loop sends on `connChan` and on
`errChan` respectively for one request. -/
def serveSends (cfg : TcpConfig) (env : Nat → PoolState) (dialOk : Nat → Bool) :
    Nat → Nat → Nat × Nat
  | 0, _ => (0, 1)
  | r + 1, i =>
    if workerSucceeds cfg (env i) (dialOk i) then (1, 0)
    else serveSends cfg env dialOk r (i + 1)

/-- `for req := range p.requestChan`: the worker resolves queued requests
strictly in FIFO order, finishing each (connection or timeout) before
taking the next; `env`, `dialOk`, `timeoutAt` describe per request what
its retry iterations observe. -/
def handleConnectionRequest (cfg : TcpConfig) (queue : List Nat)
    (env : Nat → Nat → PoolState) (dialOk : Nat → Nat → Bool)
    (timeoutAt : Nat → Nat) : List (Nat × Outcome) :=
  queue.map (fun rq => (rq, serveRequest cfg (env rq) (dialOk rq) (timeoutAt rq)))

/-- Exactly one message is sent per request, and it is a connection
exactly when the loop ended with `.conn`. -/
theorem serveLoop_sends (cfg : TcpConfig) (env : Nat → PoolState)
    (dialOk : Nat → Bool) (r i : Nat) :
    (serveSends cfg env dialOk r i).1 + (serveSends cfg env dialOk r i).2 = 1 ∧
    (serveLoop cfg env dialOk r i = .conn ↔
      (serveSends cfg env dialOk r i).1 = 1) := by
  induction r generalizing i with
  | zero => simp [serveSends, serveLoop]
  | succ r ih =>
    by_cases h : workerSucceeds cfg (env i) (dialOk i) = true
    · simp [serveSends, serveLoop, h]
    · have hf : workerSucceeds cfg (env i) (dialOk i) = false := by
        revert h
        cases workerSucceeds cfg (env i) (dialOk i) <;> simp
      simpa [serveSends, serveLoop, hf] using ih (i + 1)

/-- The loop delivers the timeout error exactly when no inspection
before the deadline succeeds. -/
theorem serveLoop_timeout_iff (cfg : TcpConfig) (env : Nat → PoolState)
    (dialOk : Nat → Bool) (r i : Nat) :
    serveLoop cfg env dialOk r i = .timeoutErr ↔
      ∀ k, k < r → workerSucceeds cfg (env (i + k)) (dialOk (i + k)) = false := by
  induction r generalizing i with
  | zero => simp [serveLoop]
  | succ r ih =>
    by_cases h : workerSucceeds cfg (env i) (dialOk i) = true
    · simp only [serveLoop, h, if_true]
      constructor
      · intro hc
        exact absurd hc (by simp)
      · intro hall
        have h0 := hall 0 (Nat.succ_pos r)
        rw [Nat.add_zero, h] at h0
        exact absurd h0 (by simp)
    · have hf : workerSucceeds cfg (env i) (dialOk i) = false := by
        revert h
        cases workerSucceeds cfg (env i) (dialOk i) <;> simp
      simp only [serveLoop, hf, Bool.false_eq_true, if_false]
      rw [ih (i + 1)]
      constructor
      · intro hall k hk
        cases k with
        | zero => simpa using hf
        | succ k =>
          have hh := hall k (by omega)
          have heq : (i + 1) + k = i + (k + 1) := by omega
          rw [heq] at hh
          exact hh
      · intro hall k hk
        have hh := hall (k + 1) (by omega)
        have heq : (i + 1) + k = i + (k + 1) := by omega
        rw [heq]
        exact hh

end PBench

namespace PBench

/-- C6: when `Get` finds no idle connection and the pool at its (positive)
open cap, it enqueues a request; the worker serves queued requests in
FIFO order of enqueue, each to completion before the next; per request it
sends exactly one message over the two reply channels — a connection or
the timeout error — the blocked `Get` receiving precisely that one
outcome; the connection is delivered exactly when some inspection before
the 3-second deadline succeeds, and the timeout error exactly when none
does (deadline expiry). -/
theorem pool_waiters_fifo_two_outcomes (cfg : TcpConfig) (st : PoolState)
    (dOk : Bool) (hidle : st.idleConns = 0) (hcap : 0 < cfg.maxOpenCount)
    (hfull : cfg.maxOpenCount ≤ st.numOpen)
    (queue : List Nat) (env : Nat → Nat → PoolState)
    (dialOk : Nat → Nat → Bool) (timeoutAt : Nat → Nat)
    (envr : Nat → PoolState) (dialOkr : Nat → Bool) (tA : Nat) :
    (TcpConnPool.get cfg st dOk).1 = .enqueue ∧
    (handleConnectionRequest cfg queue env dialOk timeoutAt).map Prod.fst = queue ∧
    (serveSends cfg envr dialOkr tA 0).1 + (serveSends cfg envr dialOkr tA 0).2 = 1 ∧
    (serveRequest cfg envr dialOkr tA = .conn ↔
      (serveSends cfg envr dialOkr tA 0).1 = 1) ∧
    (serveRequest cfg envr dialOkr tA = .timeoutErr ↔
      ∀ k, k < tA → workerSucceeds cfg (envr k) (dialOkr k) = false) := by
  refine ⟨?_, ?_, (serveLoop_sends cfg envr dialOkr tA 0).1,
    (serveLoop_sends cfg envr dialOkr tA 0).2, ?_⟩
  · simp only [TcpConnPool.get]
    split_ifs with h1 h2 <;> first | (exfalso; omega) | rfl
  · simp only [handleConnectionRequest, List.map_map]
    have hcomp : (Prod.fst ∘ fun rq : Nat =>
        (rq, serveRequest cfg (env rq) (dialOk rq) (timeoutAt rq))) = id := rfl
    rw [hcomp, List.map_id]
  · have h := serveLoop_timeout_iff cfg envr dialOkr tA 0
    simpa [serveRequest] using h

/-- Witness for `pool_waiters_fifo_two_outcomes`: cap 1 pool with one
open and no idle connection, two queued requests, an environment that
never frees capacity, and a 2-iteration deadline — the request times
out. -/
theorem pool_waiters_fifo_two_outcomes_witness :
    (TcpConnPool.get ⟨1, 0⟩ ⟨0, 1⟩ true).1 = .enqueue ∧
    (handleConnectionRequest ⟨1, 0⟩ [5, 7] (fun _ _ => ⟨0, 1⟩)
      (fun _ _ => false) (fun _ => 2)).map Prod.fst = [5, 7] ∧
    (serveSends ⟨1, 0⟩ (fun _ => ⟨0, 1⟩) (fun _ => false) 2 0).1 +
      (serveSends ⟨1, 0⟩ (fun _ => ⟨0, 1⟩) (fun _ => false) 2 0).2 = 1 ∧
    (serveRequest ⟨1, 0⟩ (fun _ => ⟨0, 1⟩) (fun _ => false) 2 = .conn ↔
      (serveSends ⟨1, 0⟩ (fun _ => ⟨0, 1⟩) (fun _ => false) 2 0).1 = 1) ∧
    (serveRequest ⟨1, 0⟩ (fun _ => ⟨0, 1⟩) (fun _ => false) 2 = .timeoutErr ↔
      ∀ k, k < 2 → workerSucceeds ⟨1, 0⟩ ((fun _ => (⟨0, 1⟩ : PoolState)) k)
        ((fun _ => false) k) = false) :=
  pool_waiters_fifo_two_outcomes ⟨1, 0⟩ ⟨0, 1⟩ true rfl (by decide) (by decide)
    [5, 7] (fun _ _ => ⟨0, 1⟩) (fun _ _ => false) (fun _ => 2)
    (fun _ => ⟨0, 1⟩) (fun _ => false) 2

end PBench
